import Mathlib

/-!
# Verification of the valkyrjs/event-store core against its specification

Shallow embedding of the event-store engine: event records, the event
factory/catalog, the event store orchestration (push, status, reduce,
snapshots), the hybrid logical clock, the serial-queue backed projector,
and the reducer engine.  Definitions are translated from the TypeScript
sources (`src/libraries/*.ts` and the provider/projector modules); effects
on the storage adapter and the hooks are made explicit as returned traces.
-/

namespace Valkyr

/-! ## Data model (src/libraries/event.ts) -/

/-- Embedding of `EventRecord` (src/libraries/event.ts).  Payloads are kept
abstract as optional strings; `created` and `recorded` are the serialized
HLC timestamp strings. -/
structure EventRecord where
  id : String
  stream : String
  type : String
  data : Option String
  meta : Option String
  created : String
  recorded : String
deriving DecidableEq, Repr

/-- Embedding of the `EventValidationResult` shape returned by
`Event.validate` (src/libraries/event.ts): a success flag together with the
collected issue lines. -/
structure ValidationResult where
  success : Bool
  errors : List String
deriving DecidableEq, Repr

/-- Embedding of an event payload handed to `EventStore.event` /
`Event.record`: the discriminating `type` plus the optional stream and
abstracted data/meta payloads. -/
structure EventPayload where
  type : String
  stream : Option String
  data : Option String
  meta : Option String
deriving DecidableEq, Repr

/-- Embedding of a registered event type (class `Event` of
src/libraries/event.ts) as consumed by the store: its type tag, its record
validator and its record factory.  The validator and factory bodies are
kept abstract (they wrap schema parsing and UUID/timestamp generation). -/
structure EvType where
  type : String
  validate : EventRecord → ValidationResult
  record : EventPayload → EventRecord

/-- Embedding of `EventStatus` (src/libraries/event.ts); the `exists` field
is renamed `exists'` because `exists` is a Lean keyword. -/
structure EventStatus where
  exists' : Bool
  outdated : Bool
deriving DecidableEq, Repr

/-! ## Errors (src/libraries/errors.ts)

Each error class is a constructor carrying the same data as the TypeScript
class; `generic` stands for a plain `new Error(message)`. -/

/-- Embedding of the store error taxonomy of src/libraries/errors.ts plus
the plain `Error` thrown by `EventStore.event`.  (The TypeScript messages
quote the type name in single quotes; the quotes are elided here.) -/
inductive StoreError where
  | generic (message : String)
  | eventMissing (type : String)
  | eventValidation (record : EventRecord) (errors : List String)
  | eventInsertion (message : String)
deriving DecidableEq, Repr

/-- The `type` discriminator of each error class (`readonly type = ...` in
src/libraries/errors.ts); a plain `Error` has no such discriminator and
reports only the builtin class name. -/
def StoreError.kind : StoreError → String
  | .generic _ => "Error"
  | .eventMissing _ => "EventMissingError"
  | .eventValidation _ _ => "EventValidationError"
  | .eventInsertion _ => "EventInsertionError"

/-! ## String ordering

The adapters compare `created` timestamp strings with the database string
order (`$gt` / SQL `>`), i.e. lexicographic order on the character
sequence.  Lean's `String.lt` is exactly lexicographic order on `.data`;
we decide it through the list order so that the kernel can evaluate it. -/

/-- Lexicographic strictly-less-than on strings, as used by the adapters
when filtering on the `created` column. -/
def strLt (a b : String) : Bool := decide (a.data < b.data)

/-- `events.at(-1)!.created`: the `created` field of the last element of a
list of records.  The empty case is unreachable at every use site (the
source guards with a length check before the non-null assertion). -/
def lastCreated : List EventRecord → String
  | [] => ""
  | [e] => e.created
  | _ :: e :: es => lastCreated (e :: es)

/-! ## Events provider (browser events provider; `checkOutdated` also in
src/unnamed/part_016)

The ledger of a stream is modelled as the list of its rows in ascending
`created` order (the providers always sort ascending by `created`). -/

namespace EventsProvider

/-- Embedding of `getById`: look the record up by its unique id. -/
def getById (ledger : List EventRecord) (id : String) : Option EventRecord :=
  ledger.find? (fun e => e.id == id)

/-- Embedding of `checkOutdated` (src/unnamed/part_016:55-64): count the
records with the same `stream` and `type` and a strictly greater `created`,
and report whether the count is positive. -/
def checkOutdated (ledger : List EventRecord) (r : EventRecord) : Bool :=
  decide (0 < ledger.countP (fun e =>
    e.stream == r.stream && e.type == r.type && strLt r.created e.created))

/-- Embedding of the events provider fetch with an optional cursor (the
`withCursor` helper of the browser provider and the `gt` branch in the
postgres provider): without a cursor the whole ascending ledger is
returned, with a cursor only the rows whose `created` is strictly greater
than the cursor. -/
def getByStream (ledger : List EventRecord) (cursor : Option String) :
    List EventRecord :=
  match cursor with
  | none => ledger
  | some c => ledger.filter (fun e => strLt c e.created)

end EventsProvider

/-! ## Reducer engine (src/libraries/reducer.ts) -/

/-- Embedding of the `Reducer` interface (src/libraries/reducer.ts):
`from` (here `from'`, `from` is a Lean keyword) turns a bare snapshot state
into a result, `reduce` folds events onto an optional snapshot state. -/
structure Reducer (σ : Type) where
  from' : σ → σ
  reduce : List EventRecord → Option σ → σ

/-- Embedding of `makeReducer` (src/libraries/reducer.ts:34-46): the fold
reducer returns the snapshot unchanged from `from`, and `reduce` left-folds
the events onto `snapshot ?? stateFn()`. -/
def makeReducer {σ : Type} (foldFn : σ → EventRecord → σ) (stateFn : Unit → σ) :
    Reducer σ :=
  { from' := fun snapshot => snapshot
  , reduce := fun events snapshot => events.foldl foldFn (snapshot.getD (stateFn ())) }

/-! ## Snapshots -/

/-- The `{cursor, state}` pair returned by `EventStore.snapshot.get`. -/
structure SnapshotData (σ : Type) where
  cursor : String
  state : σ
deriving DecidableEq

/-- One `snapshots.insert(name, streamId, cursor, state)` call recorded in
the effect trace of `reduce` / `snapshot.create`. -/
structure SnapshotRow (σ : Type) where
  name : String
  streamId : String
  cursor : String
  state : σ
deriving DecidableEq

/-! ## Event store orchestration (src/libraries/event-store.ts)

The class methods become functions over their collaborators: the factory
index `events.get` becomes a lookup function, the adapter providers become
function parameters, and the adapter/hook calls are returned as explicit
traces. -/

namespace EventStore

/-- Embedding of `EventStore.event` (src/libraries/event-store.ts:241-249):
an unregistered type throws a plain `Error` whose message names the type
(`new Error(...)`, not `EventMissingError`); a registered type delegates
to the event type's record factory. -/
def event (get : String → Option EvType) (payload : EventPayload) :
    Except StoreError EventRecord :=
  match get payload.type with
  | none => .error (.generic ("Event " ++ payload.type ++ " not found"))
  | some ev => .ok (ev.record payload)

/-- `true` exactly when the record's type is registered and its validation
succeeds; the per-record test performed inside the `pushManyEvents` loop. -/
def recordValid (get : String → Option EvType) (r : EventRecord) : Bool :=
  match get r.type with
  | none => false
  | some ev => (ev.validate r).success

/-- The validation loop of `pushManyEvents`
(src/libraries/event-store.ts:287-298): walk the records in order, throw
`EventMissingError` on an unregistered type and `EventValidationError` on a
failed validation, otherwise accumulate the records in order. -/
def validateEvents (get : String → Option EvType) :
    List EventRecord → Except StoreError (List EventRecord)
  | [] => .ok []
  | record :: rest =>
    match get record.type with
    | none => .error (.eventMissing record.type)
    | some ev =>
      if (ev.validate record).success = false then
        .error (.eventValidation record (ev.validate record).errors)
      else
        match validateEvents get rest with
        | .error e => .error e
        | .ok tail => .ok (record :: tail)

/-- Effect trace of `pushManyEvents`: the `insertMany` calls made on the
adapter, the records actually persisted (empty when the transactional batch
fails), and the argument of each `onEventsInserted` hook call. -/
structure PushManyTrace where
  insertManyCalls : List (List EventRecord)
  persisted : List EventRecord
  emitted : List (List EventRecord)
deriving DecidableEq, Repr

/-- Embedding of `EventStore.pushManyEvents`
(src/libraries/event-store.ts:283-305).  `insertManyOk` stands for the
adapter transaction outcome and `emit` for `settings.emit !== false`.  The
thrown error (if any) is returned alongside the effect trace. -/
def pushManyEvents (get : String → Option EvType) (insertManyOk : Bool)
    (insertErrMsg : String) (records : List EventRecord) (emit : Bool) :
    Option StoreError × PushManyTrace :=
  match validateEvents get records with
  | .error e => (some e, ⟨[], [], []⟩)
  | .ok events =>
    if insertManyOk = false then
      (some (.eventInsertion insertErrMsg), ⟨[events], [], []⟩)
    else if emit then
      (none, ⟨[events], events, [events]⟩)
    else
      (none, ⟨[events], events, []⟩)

/-- Embedding of `EventStore.getEventStatus`
(src/libraries/event-store.ts:324-330): an id hit reports
`{exists: true, outdated: true}`; otherwise `exists` is false and
`outdated` is delegated to the provider's `checkOutdated`. -/
def getEventStatus (ledger : List EventRecord) (event : EventRecord) :
    EventStatus :=
  match EventsProvider.getById ledger event.id with
  | some _ => ⟨true, true⟩
  | none => ⟨false, EventsProvider.checkOutdated ledger event⟩

/-- Embedding of `EventStore.reduce` (src/libraries/event-store.ts:420-453).
`snapshotGet` stands for `this.snapshot.get`, `fetch` for the
`getEventsByStreams` / `getEventsByRelations` call carrying the optional
snapshot cursor.  Returns the reduce result together with the
`snapshots.insert` calls made (one under the `auto` policy, none under
`manual`). -/
def reduce {σ : Type} (snapshotPolicy : String)
    (snapshotGet : String → String → Option (SnapshotData σ))
    (fetch : Option String → List EventRecord)
    (name id : String) (reducer : Reducer σ) (pending : List EventRecord) :
    Option σ × List (SnapshotRow σ) :=
  let snap := snapshotGet name id
  let cursor := Option.map SnapshotData.cursor snap
  let state := Option.map SnapshotData.state snap
  match fetch cursor ++ pending with
  | [] =>
    match state with
    | some s => (some (reducer.from' s), [])
    | none => (none, [])
  | e :: es =>
    let result := reducer.reduce (e :: es) state
    (some result,
      if snapshotPolicy = "auto" then
        [⟨name, id, lastCreated (e :: es), result⟩]
      else [])

/-- Embedding of `EventStore.snapshot.create`
(src/libraries/event-store.ts:473-489): fetch the events without a
snapshot-derived cursor; if none, do nothing, otherwise persist
`(name, id, last event's created, reducer.reduce(events))`. -/
def snapshotCreate {σ : Type} (fetch : Option String → List EventRecord)
    (name id : String) (reducer : Reducer σ) : List (SnapshotRow σ) :=
  match fetch none with
  | [] => []
  | e :: es =>
    [⟨name, id, lastCreated (e :: es), reducer.reduce (e :: es) none⟩]

/-- Reading back a snapshot row through `snapshots.getByStream` /
`snapshot.get`: the first row stored under `(name, streamId)`. -/
def snapshotGetOf {σ : Type} (rows : List (SnapshotRow σ)) (name id : String) :
    Option (SnapshotData σ) :=
  (rows.find? (fun r => r.name == name && r.streamId == id)).map
    (fun r => ⟨r.cursor, r.state⟩)

end EventStore

/-! ## Hybrid logical clock (src/libraries/hlc.ts)

Wall-clock readings (the `time()` calls) are passed in explicitly; the
mutable `last` is threaded through the state. -/

/-- Modelled from the spec: the `Timestamp` class (`timestamp.ts`) is
imported by src/libraries/hlc.ts but its source file is not part of the
repository snapshot.  Per the spec (section 4.1), a timestamp is a
`(time, logical)` pair ordered lexicographically, and `Timestamp.bigger`
returns the larger of two timestamps under that order. -/
structure Timestamp where
  time : Int
  logical : Nat
deriving DecidableEq, Repr

/-- Strict lexicographic order on `(time, logical)`. -/
def Timestamp.lt (a b : Timestamp) : Bool :=
  decide (a.time < b.time) || (a.time == b.time && decide (a.logical < b.logical))

/-- Modelled from the spec: `Timestamp.bigger` returns the maximum of two
timestamps under the lexicographic order. -/
def Timestamp.bigger (a b : Timestamp) : Timestamp :=
  if Timestamp.lt a b then b else a

/-- `Number.MAX_SAFE_INTEGER`. -/
def maxSafeInteger : Int := 9007199254740991

/-- State of the `HLC` class (src/libraries/hlc.ts): the configuration
fields and the last issued timestamp. -/
structure HLC where
  maxTime : Int
  maxOffset : Int
  timeUpperBound : Int
  toleratedForwardClockJump : Int
  last : Timestamp
deriving DecidableEq, Repr

/-- The HLC error classes (src/libraries/errors.ts:71-122), each carrying
its constructor arguments under the field names of the class. -/
inductive HLCError where
  | forwardJump (timejump : Int) (tolerance : Int)
  | clockOffset (offset : Int) (maxOffset : Int)
  | wallTimeOverflow (time : Int) (maxTime : Int)
deriving DecidableEq, Repr

namespace HLC

/-- Embedding of the `HLC` constructor (src/libraries/hlc.ts:15-31).
`wall` stands for the constructor's `this.time()` call; a supplied `last`
option contributes only its `time` component (`new Timestamp(last.time)`),
its logical part being dropped exactly as in the source. -/
def make (wall maxOffset timeUpperBound toleratedForwardClockJump : Int)
    (lastOpt : Option Timestamp) : HLC :=
  let base : Timestamp := ⟨wall, 0⟩
  { maxTime := if timeUpperBound > 0 then timeUpperBound else maxSafeInteger
  , maxOffset := maxOffset
  , timeUpperBound := timeUpperBound
  , toleratedForwardClockJump := toleratedForwardClockJump
  , last := match lastOpt with
            | none => base
            | some l => Timestamp.bigger ⟨l.time, 0⟩ base }

/-- `#validForwardClockJump` (src/libraries/hlc.ts:73-78). -/
def validForwardClockJump (hlc : HLC) (offset : Int) : Bool :=
  !(decide (0 < hlc.toleratedForwardClockJump) &&
    decide (hlc.toleratedForwardClockJump < -offset))

/-- `#validMaxOffset` (src/libraries/hlc.ts:80-85). -/
def validMaxOffset (hlc : HLC) (offset : Int) : Bool :=
  !(decide (0 < hlc.maxOffset) && decide (hlc.maxOffset < offset))

/-- `#validUpperBound` (src/libraries/hlc.ts:87-89). -/
def validUpperBound (hlc : HLC) (time : Int) : Bool :=
  decide (time < hlc.maxTime)

/-- `#validOffset` (src/libraries/hlc.ts:59-71): throws on a forward jump
beyond tolerance or an offset beyond `maxOffset`, otherwise reports whether
the wall clock has advanced strictly past the candidate (`offset < 0`). -/
def validOffset (hlc : HLC) (last : Timestamp) (time : Int) :
    Except HLCError Bool :=
  let offset := last.time - time
  if hlc.validForwardClockJump offset = false then
    .error (.forwardJump (-offset) hlc.toleratedForwardClockJump)
  else if hlc.validMaxOffset offset = false then
    .error (.clockOffset offset hlc.maxOffset)
  else if offset < 0 then .ok true
  else .ok false

/-- `#getTimeAndLogicalValue` (src/libraries/hlc.ts:50-57): fold the
candidate `bigger(other, last)` against the wall reading. -/
def getTimeAndLogicalValue (hlc : HLC) (wall : Int) (other : Timestamp) :
    Except HLCError (Int × Nat) :=
  let last := Timestamp.bigger other hlc.last
  match hlc.validOffset last wall with
  | .error e => .error e
  | .ok true => .ok (wall, 0)
  | .ok false => .ok (last.time, last.logical + 1)

/-- `#getTimestamp` (src/libraries/hlc.ts:42-48).  Note: the source throws
`new HLCWallTimeOverflowError(time, logical)`, so the error's `maxTime`
field receives the logical counter; the embedding mirrors that call. -/
def getTimestamp (hlc : HLC) (wall : Int) (other : Timestamp) :
    Except HLCError Timestamp :=
  match hlc.getTimeAndLogicalValue wall other with
  | .error e => .error e
  | .ok (time, logical) =>
    if hlc.validUpperBound time = false then
      .error (.wallTimeOverflow time (Int.ofNat logical))
    else .ok ⟨time, logical⟩

/-- `update` (src/libraries/hlc.ts:37-40): compute the new timestamp, store
it in `last` and return it. -/
def update (hlc : HLC) (wall : Int) (other : Timestamp) :
    Except HLCError (HLC × Timestamp) :=
  match hlc.getTimestamp wall other with
  | .error e => .error e
  | .ok ts => .ok ({ hlc with last := ts }, ts)

/-- `now` (src/libraries/hlc.ts:33-35): update against the stored `last`. -/
def now (hlc : HLC) (wall : Int) : Except HLCError (HLC × Timestamp) :=
  hlc.update wall hlc.last

/-- A sequence of `now()` calls, one wall-clock reading per call; `none`
when any call throws. -/
def nowSeq (hlc : HLC) : List Int → Option (List Timestamp)
  | [] => some []
  | w :: ws =>
    match hlc.now w with
    | .error _ => none
    | .ok (hlc', ts) => (hlc'.nowSeq ws).map (ts :: ·)

end HLC

/-! ## Projector (src/unnamed/part_002) and serial queue
(src/libraries/queue.ts) -/

/-- `ProjectionFilter` flags. -/
structure ProjectionFilter where
  allowHydratedEvents : Bool
  allowOutdatedEvents : Bool
deriving DecidableEq, Repr

/-- The `(hydrated, outdated)` status a record is dispatched with. -/
structure ProjectionStatus where
  hydrated : Bool
  outdated : Bool
deriving DecidableEq, Repr

/-- `FILTER_ONCE` (src/unnamed/part_002:21-24). -/
def FILTER_ONCE : ProjectionFilter := ⟨false, false⟩

/-- `FILTER_CONTINUOUS` (src/unnamed/part_002:26-29). -/
def FILTER_CONTINUOUS : ProjectionFilter := ⟨true, false⟩

/-- `FILTER_ALL` (src/unnamed/part_002:31-34). -/
def FILTER_ALL : ProjectionFilter := ⟨true, true⟩

/-- A JavaScript value as far as the projector's promises are concerned:
`undefined`, a boolean, or an array of values. -/
inductive JsValue where
  | undef : JsValue
  | bool : Bool → JsValue
  | arr : List JsValue → JsValue

namespace Projector

/-- `#hasValidState` (src/unnamed/part_002:271-279). -/
def hasValidState (filter : ProjectionFilter) (status : ProjectionStatus) :
    Bool :=
  if filter.allowHydratedEvents == false && status.hydrated == true then false
  else if filter.allowOutdatedEvents == false && status.outdated == true then
    false
  else true

/-- The listener installed by `#subscribe` (src/unnamed/part_002:224-250):
run the handler exactly when the filter accepts the status, reporting
`some` result on a run and `none` on a filtered-out dispatch. -/
def subscribeListener {α : Type} (filter : ProjectionFilter)
    (handler : EventRecord → α) (record : EventRecord)
    (status : ProjectionStatus) : Option α :=
  if hasValidState filter status then some (handler record) else none

/-- `once` registers the handler under `FILTER_ONCE`. -/
def once {α : Type} (handler : EventRecord → α) :
    EventRecord → ProjectionStatus → Option α :=
  subscribeListener FILTER_ONCE handler

/-- `on` registers the handler under `FILTER_CONTINUOUS` (`on` is a Lean
token, hence the prime). -/
def on' {α : Type} (handler : EventRecord → α) :
    EventRecord → ProjectionStatus → Option α :=
  subscribeListener FILTER_CONTINUOUS handler

/-- `all` registers the handler under `FILTER_ALL`. -/
def all {α : Type} (handler : EventRecord → α) :
    EventRecord → ProjectionStatus → Option α :=
  subscribeListener FILTER_ALL handler

/-- A message sitting in a per-stream serial queue. -/
structure Message where
  record : EventRecord
  status : ProjectionStatus

/-- The work function installed by `#makeQueue`
(src/unnamed/part_002:63-74): run every listener registered for the
record's type (joined by `Promise.all`), producing the array of their
results. -/
def queueHandler
    (listeners : String → List (EventRecord → ProjectionStatus → JsValue))
    (msg : Message) : JsValue :=
  JsValue.arr ((listeners msg.record.type).map (fun fn => fn msg.record msg.status))

/-- Observable outcome of one `push` (src/unnamed/part_002:82-89): the key
of the queue found or created, the message enqueued on it, and the value
the returned promise is resolved with once the queue slot completes
(`#process` resolves the job with the work function's result,
src/libraries/queue.ts:58-60). -/
structure PushResult where
  queueKey : String
  enqueued : Message
  resolved : JsValue

/-- Embedding of `Projector.push`: find-or-create the queue keyed by
`record.stream`, enqueue `{record, status}`, and resolve the awaiting
promise with the queue handler's output for that message. -/
def push (listeners : String → List (EventRecord → ProjectionStatus → JsValue))
    (record : EventRecord) (status : ProjectionStatus) : PushResult :=
  { queueKey := record.stream
  , enqueued := ⟨record, status⟩
  , resolved := queueHandler listeners ⟨record, status⟩ }

end Projector

/-! ## Concrete fixtures used by witnesses -/

/-- A record of type `T` on stream `s` created at `100-00000`. -/
def wRec1 : EventRecord :=
  ⟨"id-1", "s", "T", none, none, "100-00000", "100-00000"⟩

/-- A record of type `T` on stream `s` created earlier, at `050-00000`. -/
def wRec0 : EventRecord :=
  ⟨"id-0", "s", "T", none, none, "050-00000", "050-00000"⟩

/-- A record of type `T` on stream `s` created at `200-00000`. -/
def wRec2 : EventRecord :=
  ⟨"id-2", "s", "T", none, none, "200-00000", "200-00000"⟩

/-- A record of type `T` on stream `s` created at `300-00000`. -/
def wRec3 : EventRecord :=
  ⟨"id-3", "s", "T", none, none, "300-00000", "300-00000"⟩

/-- A record of an unregistered type `U`. -/
def wRecU : EventRecord :=
  ⟨"id-u", "s", "U", none, none, "100-00000", "100-00000"⟩

/-- A registered event type `T` accepting records without data. -/
def wEvT : EvType :=
  { type := "T"
  , validate := fun r => if r.data == none then ⟨true, []⟩ else ⟨false, ["data rejected"]⟩
  , record := fun p =>
      ⟨"id-new", p.stream.getD "gen", p.type, p.data, p.meta, "100-00000", "100-00000"⟩ }

/-- A catalog registering exactly the event type `T`. -/
def wGet : String → Option EvType := fun t => if t == "T" then some wEvT else none

/-- A counting fold reducer state function. -/
def wStateFn : Unit → Nat := fun _ => 0

/-- A counting fold: ignores the record and increments. -/
def wFoldFn : Nat → EventRecord → Nat := fun s _ => s + 1

/-! # Theorems -/

theorem strLt_iff_lt (a b : String) : strLt a b = true ↔ a < b := by
  simp [strLt]

theorem strLt_irrefl (a : String) : strLt a a = false := by
  simp [strLt]

theorem strLt_asymm {a b : String} (h : strLt a b = true) : strLt b a = false := by
  rw [strLt_iff_lt] at h
  rw [← Bool.not_eq_true, strLt_iff_lt]
  exact asymm h

theorem lastCreated_append (l₁ : List EventRecord) {l₂ : List EventRecord}
    (h : l₂ ≠ []) : lastCreated (l₁ ++ l₂) = lastCreated l₂ := by
  induction l₁ with
  | nil => rfl
  | cons a l ih =>
    cases hl : l ++ l₂ with
    | nil => exact absurd (List.append_eq_nil.mp hl).2 h
    | cons b bs =>
      show lastCreated (a :: (l ++ l₂)) = lastCreated l₂
      rw [hl]
      show lastCreated (b :: bs) = lastCreated l₂
      rw [← hl, ih]

theorem lastCreated_getLast {l : List EventRecord} (h : l ≠ []) :
    lastCreated l = (l.getLast h).created := by
  induction l with
  | nil => exact absurd rfl h
  | cons a l ih =>
    cases l with
    | nil => rfl
    | cons b bs =>
      show lastCreated (b :: bs) = _
      rw [ih (List.cons_ne_nil b bs)]
      exact congrArg EventRecord.created
        (List.getLast_cons (List.cons_ne_nil b bs)).symm

/-- C4: `getEventStatus(r)` returns `{exists: true, outdated: true}` exactly
when the adapter holds a record with id `r.id`; otherwise it returns
`exists = false` and `outdated = checkOutdated(r)`, which holds iff the
ledger has a record with the same stream and type and a strictly greater
`created` timestamp. -/
theorem getEventStatus_spec (ledger : List EventRecord) (r : EventRecord) :
    (EventStore.getEventStatus ledger r = ⟨true, true⟩ ↔ ∃ e ∈ ledger, e.id = r.id)
  ∧ ((¬ ∃ e ∈ ledger, e.id = r.id) →
      EventStore.getEventStatus ledger r
        = ⟨false, decide (∃ e ∈ ledger,
            e.stream = r.stream ∧ e.type = r.type ∧ strLt r.created e.created = true)⟩) := by
  have hco : EventsProvider.checkOutdated ledger r
      = decide (∃ e ∈ ledger,
          e.stream = r.stream ∧ e.type = r.type ∧ strLt r.created e.created = true) := by
    unfold EventsProvider.checkOutdated
    rw [decide_eq_decide]
    rw [List.countP_pos_iff]
    constructor
    · rintro ⟨e, he, hp⟩
      simp only [Bool.and_eq_true, beq_iff_eq] at hp
      exact ⟨e, he, hp.1.1, hp.1.2, hp.2⟩
    · rintro ⟨e, he, h1, h2, h3⟩
      refine ⟨e, he, ?_⟩
      simp only [Bool.and_eq_true, beq_iff_eq]
      exact ⟨⟨h1, h2⟩, h3⟩
  have hgb : EventsProvider.getById ledger r.id
      = List.find? (fun e => e.id == r.id) ledger := rfl
  cases hfind : List.find? (fun e => e.id == r.id) ledger with
  | some e =>
    have hmem : e ∈ ledger := List.mem_of_find?_eq_some hfind
    have hid : e.id = r.id := by
      have := List.find?_some hfind
      simpa using this
    constructor
    · constructor
      · intro _
        exact ⟨e, hmem, hid⟩
      · intro _
        unfold EventStore.getEventStatus
        rw [hgb, hfind]
    · intro hno
      exact absurd ⟨e, hmem, hid⟩ hno
  | none =>
    have hnone : ∀ e ∈ ledger, e.id ≠ r.id := by
      intro e he
      have := List.find?_eq_none.mp hfind e he
      simpa using this
    constructor
    · constructor
      · intro h
        unfold EventStore.getEventStatus at h
        rw [hgb, hfind] at h
        exact absurd (congrArg EventStatus.exists' h) (by simp)
      · rintro ⟨e, he, hid⟩
        exact absurd hid (hnone e he)
    · intro _
      unfold EventStore.getEventStatus
      rw [hgb, hfind, hco]

/-- C4 witness: probing a ledger holding one `(s, T)` record created at
`100-00000` with an absent record created at `050-00000` yields
`{exists: false, outdated: true}`. -/
theorem getEventStatus_spec_witness :
    (¬ ∃ e ∈ [wRec1], e.id = wRec0.id)
  ∧ EventStore.getEventStatus [wRec1] wRec0
      = ⟨false, decide (∃ e ∈ [wRec1],
          e.stream = wRec0.stream ∧ e.type = wRec0.type
            ∧ strLt wRec0.created e.created = true)⟩ :=
  ⟨by decide, (getEventStatus_spec [wRec1] wRec0).2 (by decide)⟩

/-- C5: a `once` handler is never invoked on a hydrated or outdated status;
an `on` handler is invoked iff the status is not outdated; an `all` handler
is invoked on every status. -/
theorem projector_mode_filtering {α : Type} (h : EventRecord → α)
    (r : EventRecord) (s : ProjectionStatus) :
    ((s.hydrated = true ∨ s.outdated = true) → Projector.once h r s = none)
  ∧ ((Projector.on' h r s).isSome = true ↔ s.outdated = false)
  ∧ Projector.all h r s = some (h r) := by
  obtain ⟨hy, od⟩ := s
  cases hy <;> cases od <;>
    simp [Projector.once, Projector.on', Projector.all,
      Projector.subscribeListener, Projector.hasValidState,
      FILTER_ONCE, FILTER_CONTINUOUS, FILTER_ALL]

/-- C5 witness: on a fresh status `once` runs; on a hydrated non-outdated
status `once` is filtered out while `on` and `all` run. -/
theorem projector_mode_filtering_witness :
    Projector.once (fun _ => (0 : Nat)) wRec1 ⟨true, false⟩ = none
  ∧ (Projector.on' (fun _ => (0 : Nat)) wRec1 ⟨true, false⟩).isSome = true
  ∧ Projector.all (fun _ => (0 : Nat)) wRec1 ⟨true, true⟩ = some 0 :=
  ⟨(projector_mode_filtering (fun _ => 0) wRec1 ⟨true, false⟩).1 (Or.inl rfl),
   (projector_mode_filtering (fun _ => 0) wRec1 ⟨true, false⟩).2.1.mpr rfl,
   (projector_mode_filtering (fun _ => 0) wRec1 ⟨true, true⟩).2.2⟩

/-- C9 counterexample: `EventStore.event` on an unregistered type `x`
throws the plain `Error` with message `Event x not found`, whose error kind
is not `EventMissingError` — contradicting the claim that the failure is of
the MissingEvent kind. -/
theorem event_unregistered_generic_counterexample :
    EventStore.event (fun _ => none) ⟨"x", none, none, none⟩
      = .error (.generic "Event x not found")
  ∧ (StoreError.generic "Event x not found").kind = "Error"
  ∧ (StoreError.eventMissing "x").kind = "EventMissingError"
  ∧ (StoreError.generic "Event x not found").kind ≠ "EventMissingError" := by
  refine ⟨rfl, rfl, rfl, ?_⟩
  decide

/-- C9 (amended): for an unregistered payload type, `EventStore.event`
throws a plain generic `Error` naming the type (not the MissingEvent error
kind); for a registered type it returns the event type's record factory
applied to the payload. -/
theorem event_spec (get : String → Option EvType) (payload : EventPayload) :
    (get payload.type = none →
      EventStore.event get payload
        = .error (.generic ("Event " ++ payload.type ++ " not found")))
  ∧ (∀ ev, get payload.type = some ev →
      EventStore.event get payload = .ok (ev.record payload)) := by
  constructor
  · intro h
    unfold EventStore.event
    rw [h]
  · intro ev h
    unfold EventStore.event
    rw [h]

/-- C9 witness: the catalog registering only `T` rejects type `U` with the
generic error and produces the factory record for type `T`. -/
theorem event_spec_witness :
    EventStore.event wGet ⟨"U", none, none, none⟩
      = .error (.generic "Event U not found")
  ∧ EventStore.event wGet ⟨"T", none, none, none⟩
      = .ok (wEvT.record ⟨"T", none, none, none⟩) :=
  ⟨(event_spec wGet ⟨"U", none, none, none⟩).1 rfl,
   (event_spec wGet ⟨"T", none, none, none⟩).2 wEvT rfl⟩

/-- The concrete clock of the C7 failing input: wall reading 50 at
construction, `timeUpperBound = 100` (so `maxTime = 100`), no offset or
jump limits. -/
def wHLC : HLC := HLC.make 50 0 100 0 none

/-- C7: at the failing input the update does fail once the computed time
reaches `maxTime`, but the thrown `WallTimeOverflowError` carries the
logical counter (4) in its `maxTime` field instead of the clock's
`maxTime` (100) — `new HLCWallTimeOverflowError(time, logical)` passes the
wrong second argument. -/
theorem hlc_wallTimeOverflow_carries_logical :
    wHLC.maxTime = 100
  ∧ HLC.update wHLC 50 ⟨100, 3⟩ = .error (.wallTimeOverflow 100 4)
  ∧ HLCError.wallTimeOverflow 100 4 ≠ HLCError.wallTimeOverflow 100 wHLC.maxTime := by
  refine ⟨rfl, rfl, ?_⟩
  decide

/-- The listener table of the C8 failing input: one listener for type `T`
whose handler resolves with `undefined`. -/
def wListeners : String → List (EventRecord → ProjectionStatus → JsValue) :=
  fun t => if t == "T" then [fun _ _ => JsValue.undef] else []

/-- C8: `push` finds-or-creates the queue keyed by `record.stream`,
enqueues the message, and the queue slot runs all listeners registered for
the record's type; but the awaited promise is resolved with the
`Promise.all` array of listener results — at the failing input the value
`[undefined]`, never the boolean `true` that the claim and the declared
`Promise<boolean>` type promise. -/
theorem projector_push_resolution :
    (∀ ls r s, Projector.push ls r s
       = ⟨r.stream, ⟨r, s⟩, JsValue.arr ((ls r.type).map (fun fn => fn r s))⟩)
  ∧ (Projector.push wListeners wRec1 ⟨false, false⟩).queueKey = wRec1.stream
  ∧ (Projector.push wListeners wRec1 ⟨false, false⟩).resolved
      = JsValue.arr [JsValue.undef]
  ∧ (Projector.push wListeners wRec1 ⟨false, false⟩).resolved
      ≠ JsValue.bool true := by
  refine ⟨fun ls r s => rfl, rfl, rfl, fun h => JsValue.noConfusion h⟩

theorem validateEvents_ok_of_all_valid {get : String → Option EvType}
    {records : List EventRecord}
    (h : ∀ r ∈ records, EventStore.recordValid get r = true) :
    EventStore.validateEvents get records = .ok records := by
  induction records with
  | nil => rfl
  | cons a l ih =>
    have ha := h a (List.mem_cons_self a l)
    have htail := ih (fun r hr => h r (List.mem_cons_of_mem a hr))
    unfold EventStore.recordValid at ha
    cases hget : get a.type with
    | none => rw [hget] at ha; exact absurd ha (by simp)
    | some ev =>
      rw [hget] at ha
      simp only at ha
      simp [EventStore.validateEvents, hget, ha, htail]

theorem validateEvents_error_of_invalid {get : String → Option EvType}
    {records : List EventRecord}
    (h : ∃ r ∈ records, EventStore.recordValid get r = false) :
    ∃ e, EventStore.validateEvents get records = .error e := by
  induction records with
  | nil => obtain ⟨r, hr, _⟩ := h; exact absurd hr (List.not_mem_nil r)
  | cons a l ih =>
    cases hget : get a.type with
    | none =>
      refine ⟨.eventMissing a.type, ?_⟩
      simp [EventStore.validateEvents, hget]
    | some ev =>
      by_cases hva : (ev.validate a).success = false
      · refine ⟨.eventValidation a (ev.validate a).errors, ?_⟩
        simp [EventStore.validateEvents, hget, hva]
      · have hval : EventStore.recordValid get a = true := by
          unfold EventStore.recordValid
          rw [hget]
          simpa using hva
        obtain ⟨r, hr, hrv⟩ := h
        rcases List.mem_cons.mp hr with heq | hmem
        · rw [heq] at hrv; rw [hval] at hrv; exact absurd hrv (by simp)
        · obtain ⟨e, he⟩ := ih ⟨r, hmem, hrv⟩
          refine ⟨e, ?_⟩
          simp [EventStore.validateEvents, hget, hva, he]

/-- C1: `pushManyEvents` validates every record before any insertion — an
unregistered or invalid record makes it throw with no `insertMany` call and
nothing persisted — and on a successful insert with `settings.emit` not
false the `onEventsInserted` hook receives exactly the input list, exactly
once. -/
theorem pushManyEvents_spec (get : String → Option EvType)
    (insertManyOk : Bool) (msg : String) (records : List EventRecord)
    (emit : Bool) :
    ((∃ r ∈ records, EventStore.recordValid get r = false) →
        (EventStore.pushManyEvents get insertManyOk msg records emit).1.isSome = true
      ∧ (EventStore.pushManyEvents get insertManyOk msg records emit).2.insertManyCalls = []
      ∧ (EventStore.pushManyEvents get insertManyOk msg records emit).2.persisted = []
      ∧ (EventStore.pushManyEvents get insertManyOk msg records emit).2.emitted = [])
  ∧ ((∀ r ∈ records, EventStore.recordValid get r = true) →
      insertManyOk = true → emit = true →
        (EventStore.pushManyEvents get insertManyOk msg records emit).1 = none
      ∧ (EventStore.pushManyEvents get insertManyOk msg records emit).2.insertManyCalls
          = [records]
      ∧ (EventStore.pushManyEvents get insertManyOk msg records emit).2.emitted
          = [records]) := by
  constructor
  · intro h
    obtain ⟨e, he⟩ := validateEvents_error_of_invalid h
    unfold EventStore.pushManyEvents
    rw [he]
    exact ⟨rfl, rfl, rfl, rfl⟩
  · intro h hok hemit
    unfold EventStore.pushManyEvents
    rw [validateEvents_ok_of_all_valid h, hok, hemit]
    exact ⟨rfl, rfl, rfl⟩

/-- C1 witness: a batch containing the unregistered record throws with
nothing inserted, while the all-valid singleton batch is inserted and
emitted exactly once with exactly the input list. -/
theorem pushManyEvents_spec_witness :
    ((EventStore.pushManyEvents wGet true "boom" [wRec1, wRecU] true).1.isSome = true
   ∧ (EventStore.pushManyEvents wGet true "boom" [wRec1, wRecU] true).2.insertManyCalls = []
   ∧ (EventStore.pushManyEvents wGet true "boom" [wRec1, wRecU] true).2.persisted = []
   ∧ (EventStore.pushManyEvents wGet true "boom" [wRec1, wRecU] true).2.emitted = [])
  ∧ ((EventStore.pushManyEvents wGet true "boom" [wRec1] true).1 = none
   ∧ (EventStore.pushManyEvents wGet true "boom" [wRec1] true).2.insertManyCalls
       = [[wRec1]]
   ∧ (EventStore.pushManyEvents wGet true "boom" [wRec1] true).2.emitted
       = [[wRec1]]) :=
  ⟨(pushManyEvents_spec wGet true "boom" [wRec1, wRecU] true).1 (by decide),
   (pushManyEvents_spec wGet true "boom" [wRec1] true).2 (by decide) rfl rfl⟩

theorem reduce_of_fetch_nil {σ : Type} (pol : String)
    (sget : String → String → Option (SnapshotData σ))
    (fetch : Option String → List EventRecord) (nm id : String)
    (red : Reducer σ) (pending : List EventRecord)
    (h : fetch (Option.map SnapshotData.cursor (sget nm id)) ++ pending = []) :
    EventStore.reduce pol sget fetch nm id red pending
      = (Option.map red.from' (Option.map SnapshotData.state (sget nm id)), []) := by
  unfold EventStore.reduce
  simp only [h]
  cases sget nm id with
  | none => rfl
  | some sd => rfl

theorem reduce_of_fetch_cons {σ : Type} (pol : String)
    (sget : String → String → Option (SnapshotData σ))
    (fetch : Option String → List EventRecord) (nm id : String)
    (red : Reducer σ) (pending : List EventRecord) (e : EventRecord)
    (es : List EventRecord)
    (h : fetch (Option.map SnapshotData.cursor (sget nm id)) ++ pending = e :: es) :
    EventStore.reduce pol sget fetch nm id red pending
      = (some (red.reduce (e :: es) (Option.map SnapshotData.state (sget nm id))),
         if pol = "auto" then
           [⟨nm, id, lastCreated (e :: es),
             red.reduce (e :: es) (Option.map SnapshotData.state (sget nm id))⟩]
         else []) := by
  unfold EventStore.reduce
  simp only [h]

/-- C2: `reduce` takes its cursor and state from the stored snapshot under
`(name, id)` when one exists; when the events fetched after that cursor
concatenated with `pending` are empty it returns `reducer.from(state)` for
an existing snapshot and `undefined` otherwise; when non-empty it returns
`reducer.reduce(events, state)` and, exactly under the `auto` snapshot
policy, persists one snapshot at `(name, id, last event's created,
result)`. -/
theorem reduce_spec {σ : Type} (pol : String)
    (sget : String → String → Option (SnapshotData σ))
    (fetch : Option String → List EventRecord) (nm id : String)
    (red : Reducer σ) (pending : List EventRecord) :
    (fetch (Option.map SnapshotData.cursor (sget nm id)) ++ pending = [] →
       (sget nm id = none →
          EventStore.reduce pol sget fetch nm id red pending = (none, []))
     ∧ (∀ sd, sget nm id = some sd →
          EventStore.reduce pol sget fetch nm id red pending
            = (some (red.from' sd.state), [])))
  ∧ (fetch (Option.map SnapshotData.cursor (sget nm id)) ++ pending ≠ [] →
       (EventStore.reduce pol sget fetch nm id red pending).1
         = some (red.reduce
             (fetch (Option.map SnapshotData.cursor (sget nm id)) ++ pending)
             (Option.map SnapshotData.state (sget nm id)))
     ∧ (pol = "auto" →
         (EventStore.reduce pol sget fetch nm id red pending).2
           = [⟨nm, id,
               lastCreated (fetch (Option.map SnapshotData.cursor (sget nm id)) ++ pending),
               red.reduce
                 (fetch (Option.map SnapshotData.cursor (sget nm id)) ++ pending)
                 (Option.map SnapshotData.state (sget nm id))⟩])
     ∧ (pol ≠ "auto" →
         (EventStore.reduce pol sget fetch nm id red pending).2 = [])) := by
  constructor
  · intro h
    constructor
    · intro hs
      rw [reduce_of_fetch_nil pol sget fetch nm id red pending h, hs]
      rfl
    · intro sd hs
      rw [reduce_of_fetch_nil pol sget fetch nm id red pending h, hs]
      rfl
  · intro h
    cases hfe : fetch (Option.map SnapshotData.cursor (sget nm id)) ++ pending with
    | nil => exact absurd hfe h
    | cons e es =>
      rw [reduce_of_fetch_cons pol sget fetch nm id red pending e es hfe]
      refine ⟨rfl, ?_, ?_⟩
      · intro hpol
        rw [if_pos hpol]
      · intro hpol
        rw [if_neg hpol]

/-- A concrete stored snapshot used by the C2 witness: cursor `100-00000`,
state `5`. -/
def wSget : String → String → Option (SnapshotData Nat) :=
  fun n i => if n == "count" && i == "s" then some ⟨"100-00000", 5⟩ else none

/-- A concrete fetch used by the C2 and C10 witnesses: the ledger holds
`wRec1` and `wRec2`; with a cursor only the strictly newer rows return. -/
def wFetch : Option String → List EventRecord :=
  fun cursor => EventsProvider.getByStream [wRec1, wRec2] cursor

/-- C2 witness: with the stored snapshot at cursor `100-00000` the fetch
returns only `wRec2`; the reduce result folds it onto state 5 and the auto
policy persists the snapshot at `wRec2.created`. -/
theorem reduce_spec_witness :
    (EventStore.reduce "auto" wSget wFetch "count" "s"
        (makeReducer wFoldFn wStateFn) []).1 = some 6
  ∧ (EventStore.reduce "auto" wSget wFetch "count" "s"
        (makeReducer wFoldFn wStateFn) []).2
      = [⟨"count", "s", "200-00000", 6⟩] := by
  have h := (reduce_spec "auto" wSget wFetch "count" "s"
    (makeReducer wFoldFn wStateFn) []).2 (by decide)
  refine ⟨?_, ?_⟩
  · have h1 := h.1
    rw [h1]
    decide
  · have h2 := h.2.1 rfl
    rw [h2]
    decide

/-- C10: under the `auto` snapshot policy, a `reduce` call with non-empty
`pending` persists a snapshot whose state folds the uncommitted pending
records and whose cursor is the `created` of the last pending record. -/
theorem reduce_auto_pending_snapshot {σ : Type}
    (sget : String → String → Option (SnapshotData σ))
    (fetch : Option String → List EventRecord) (nm id : String)
    (red : Reducer σ) (pending : List EventRecord) (hp : pending ≠ []) :
    (EventStore.reduce "auto" sget fetch nm id red pending).2
      = [⟨nm, id, lastCreated pending,
          red.reduce
            (fetch (Option.map SnapshotData.cursor (sget nm id)) ++ pending)
            (Option.map SnapshotData.state (sget nm id))⟩] := by
  cases hfe : fetch (Option.map SnapshotData.cursor (sget nm id)) ++ pending with
  | nil => exact absurd (List.append_eq_nil.mp hfe).2 hp
  | cons e es =>
    rw [reduce_of_fetch_cons "auto" sget fetch nm id red pending e es hfe]
    rw [if_pos rfl, ← hfe, lastCreated_append _ hp]

/-- C10 witness: reducing with pending `[wRec3]` (created `300-00000`, not
in the ledger) under the auto policy persists the snapshot at cursor
`300-00000` with the pending record folded in. -/
theorem reduce_auto_pending_snapshot_witness :
    (EventStore.reduce "auto" wSget wFetch "count" "s"
        (makeReducer wFoldFn wStateFn) [wRec3]).2
      = [⟨"count", "s", lastCreated [wRec3],
          (makeReducer wFoldFn wStateFn).reduce
            (wFetch (Option.map SnapshotData.cursor (wSget "count" "s")) ++ [wRec3])
            (Option.map SnapshotData.state (wSget "count" "s"))⟩] :=
  reduce_auto_pending_snapshot wSget wFetch "count" "s"
    (makeReducer wFoldFn wStateFn) [wRec3] (by decide)

theorem filter_after_last {pre post : List EventRecord} (hpre : pre ≠ [])
    (hsorted : (pre ++ post).Pairwise
      (fun a b => strLt a.created b.created = true)) :
    (pre ++ post).filter (fun e => strLt (lastCreated pre) e.created)
      = post := by
  have hlast : lastCreated pre = (pre.getLast hpre).created :=
    lastCreated_getLast hpre
  obtain ⟨hpre', hpost', hcross⟩ := List.pairwise_append.mp hsorted
  rw [List.filter_append]
  have hkeep : post.filter (fun e => strLt (lastCreated pre) e.created)
      = post := by
    rw [List.filter_eq_self]
    intro b hb
    rw [hlast]
    exact hcross (pre.getLast hpre) (List.getLast_mem hpre) b hb
  have hdrop : pre.filter (fun e => strLt (lastCreated pre) e.created)
      = [] := by
    rw [List.filter_eq_nil_iff]
    intro a ha
    rw [hlast]
    have hdecomp := List.dropLast_append_getLast hpre
    rcases List.mem_append.mp (hdecomp ▸ ha) with hmem | hsingle
    · have hpair : (pre.dropLast ++ [pre.getLast hpre]).Pairwise
          (fun a b => strLt a.created b.created = true) := by
        rw [hdecomp]
        exact hpre'
      obtain ⟨_, _, hc⟩ := List.pairwise_append.mp hpair
      have halt := hc a hmem (pre.getLast hpre) (List.mem_singleton_self _)
      simp [strLt_asymm halt]
    · rw [List.mem_singleton.mp hsingle]
      simp [strLt_irrefl]
  rw [hkeep, hdrop, List.nil_append]

theorem snapshotCreate_of_ne_nil {σ : Type} (ledger : List EventRecord)
    (nm id : String) (red : Reducer σ) (h : ledger ≠ []) :
    EventStore.snapshotCreate (EventsProvider.getByStream ledger) nm id red
      = [⟨nm, id, lastCreated ledger, red.reduce ledger none⟩] := by
  cases ledger with
  | nil => exact absurd rfl h
  | cons e es => rfl

theorem snapshotGetOf_singleton {σ : Type} (nm id c : String) (st : σ) :
    EventStore.snapshotGetOf [⟨nm, id, c, st⟩] nm id = some ⟨c, st⟩ := by
  unfold EventStore.snapshotGetOf
  simp

/-- C3: for a fold reducer, reducing a stream seeded by a stored snapshot
(state of the prefix at its last cursor, then only events created after the
cursor) returns the same final state as folding every event of the stream
in created order onto the default state with no snapshot. -/
theorem reduce_snapshot_equivalence {σ : Type}
    (foldFn : σ → EventRecord → σ) (stateFn : Unit → σ)
    (pre post : List EventRecord) (pol nm id : String) (hpre : pre ≠ [])
    (hsorted : (pre ++ post).Pairwise
      (fun a b => strLt a.created b.created = true)) :
    EventStore.snapshotCreate (EventsProvider.getByStream pre) nm id
        (makeReducer foldFn stateFn)
      = [⟨nm, id, lastCreated pre, (makeReducer foldFn stateFn).reduce pre none⟩]
  ∧ (EventStore.reduce pol
       (EventStore.snapshotGetOf
         (EventStore.snapshotCreate (EventsProvider.getByStream pre) nm id
           (makeReducer foldFn stateFn)))
       (EventsProvider.getByStream (pre ++ post)) nm id
       (makeReducer foldFn stateFn) []).1
      = some ((makeReducer foldFn stateFn).reduce (pre ++ post) none) := by
  have hsc := snapshotCreate_of_ne_nil pre nm id (makeReducer foldFn stateFn) hpre
  refine ⟨hsc, ?_⟩
  have hsget : EventStore.snapshotGetOf
      (EventStore.snapshotCreate (EventsProvider.getByStream pre) nm id
        (makeReducer foldFn stateFn)) nm id
      = some ⟨lastCreated pre, (makeReducer foldFn stateFn).reduce pre none⟩ := by
    rw [hsc]
    exact snapshotGetOf_singleton nm id (lastCreated pre) _
  have hcursor : Option.map SnapshotData.cursor
      (EventStore.snapshotGetOf
        (EventStore.snapshotCreate (EventsProvider.getByStream pre) nm id
          (makeReducer foldFn stateFn)) nm id) = some (lastCreated pre) := by
    rw [hsget]
    rfl
  have hstate : Option.map SnapshotData.state
      (EventStore.snapshotGetOf
        (EventStore.snapshotCreate (EventsProvider.getByStream pre) nm id
          (makeReducer foldFn stateFn)) nm id)
      = some ((makeReducer foldFn stateFn).reduce pre none) := by
    rw [hsget]
    rfl
  have hfetch : EventsProvider.getByStream (pre ++ post)
      (Option.map SnapshotData.cursor
        (EventStore.snapshotGetOf
          (EventStore.snapshotCreate (EventsProvider.getByStream pre) nm id
            (makeReducer foldFn stateFn)) nm id)) = post := by
    rw [hcursor]
    exact filter_after_last hpre hsorted
  by_cases hp0 : post = []
  · have hnil : EventsProvider.getByStream (pre ++ post)
        (Option.map SnapshotData.cursor
          (EventStore.snapshotGetOf
            (EventStore.snapshotCreate (EventsProvider.getByStream pre) nm id
              (makeReducer foldFn stateFn)) nm id)) ++ ([] : List EventRecord)
        = [] := by
      rw [List.append_nil, hfetch, hp0]
    rw [reduce_of_fetch_nil pol _ _ nm id _ [] hnil, hstate]
    rw [hp0, List.append_nil]
    rfl
  · obtain ⟨p, ps, hpp⟩ := List.exists_cons_of_ne_nil hp0
    have hcons : EventsProvider.getByStream (pre ++ post)
        (Option.map SnapshotData.cursor
          (EventStore.snapshotGetOf
            (EventStore.snapshotCreate (EventsProvider.getByStream pre) nm id
              (makeReducer foldFn stateFn)) nm id)) ++ ([] : List EventRecord)
        = p :: ps := by
      rw [List.append_nil, hfetch, hpp]
    rw [reduce_of_fetch_cons pol _ _ nm id _ [] p ps hcons, hstate]
    rw [← hpp]
    simp only [makeReducer, Option.getD_some]
    rw [List.foldl_append]

/-- C3 witness: a two-event prefix snapshot followed by one newer event —
the seeded reduce and the from-scratch fold both count 3. -/
theorem reduce_snapshot_equivalence_witness :
    EventStore.snapshotCreate (EventsProvider.getByStream [wRec1, wRec2]) "count" "s"
        (makeReducer wFoldFn wStateFn)
      = [⟨"count", "s", lastCreated [wRec1, wRec2],
          (makeReducer wFoldFn wStateFn).reduce [wRec1, wRec2] none⟩]
  ∧ (EventStore.reduce "manual"
       (EventStore.snapshotGetOf
         (EventStore.snapshotCreate (EventsProvider.getByStream [wRec1, wRec2])
           "count" "s" (makeReducer wFoldFn wStateFn)))
       (EventsProvider.getByStream ([wRec1, wRec2] ++ [wRec3])) "count" "s"
       (makeReducer wFoldFn wStateFn) []).1
      = some ((makeReducer wFoldFn wStateFn).reduce ([wRec1, wRec2] ++ [wRec3]) none) :=
  reduce_snapshot_equivalence wFoldFn wStateFn [wRec1, wRec2] [wRec3]
    "manual" "count" "s" (by decide) (by decide)

theorem bigger_self (a : Timestamp) : Timestamp.bigger a a = a := by
  unfold Timestamp.bigger
  split <;> rfl

theorem getTimeAndLogicalValue_ok {g : HLC} {w : Int} {o : Timestamp}
    {time : Int} {logical : Nat}
    (h : HLC.getTimeAndLogicalValue g w o = .ok (time, logical)) :
    ((Timestamp.bigger o g.last).time < w ∧ time = w ∧ logical = 0)
  ∨ (¬ (Timestamp.bigger o g.last).time < w
     ∧ time = (Timestamp.bigger o g.last).time
     ∧ logical = (Timestamp.bigger o g.last).logical + 1) := by
  simp only [HLC.getTimeAndLogicalValue, HLC.validOffset] at h
  by_cases h1 : g.validForwardClockJump ((Timestamp.bigger o g.last).time - w)
      = false
  · rw [if_pos h1] at h
    cases h
  · rw [if_neg h1] at h
    by_cases h2 : g.validMaxOffset ((Timestamp.bigger o g.last).time - w)
        = false
    · rw [if_pos h2] at h
      cases h
    · rw [if_neg h2] at h
      by_cases h3 : (Timestamp.bigger o g.last).time - w < 0
      · rw [if_pos h3] at h
        simp only [] at h
        obtain ⟨ht, hl⟩ := Prod.mk.injEq .. ▸ Except.ok.inj h
        exact Or.inl ⟨sub_neg.mp h3, ht.symm, hl.symm⟩
      · rw [if_neg h3] at h
        simp only [] at h
        obtain ⟨ht, hl⟩ := Prod.mk.injEq .. ▸ Except.ok.inj h
        exact Or.inr ⟨fun hc => h3 (sub_neg.mpr hc), ht.symm, hl.symm⟩

theorem getTimestamp_ok {g : HLC} {w : Int} {o : Timestamp} {ts : Timestamp}
    (h : HLC.getTimestamp g w o = .ok ts) :
    ts = (if (Timestamp.bigger o g.last).time < w then (⟨w, 0⟩ : Timestamp)
          else ⟨(Timestamp.bigger o g.last).time,
                (Timestamp.bigger o g.last).logical + 1⟩) := by
  unfold HLC.getTimestamp at h
  cases hgl : HLC.getTimeAndLogicalValue g w o with
  | error e => rw [hgl] at h; cases h
  | ok p =>
    obtain ⟨time, logical⟩ := p
    rw [hgl] at h
    simp only [] at h
    by_cases hub : HLC.validUpperBound g time = false
    · rw [if_pos hub] at h
      cases h
    · rw [if_neg hub] at h
      have hts := Except.ok.inj h
      rcases getTimeAndLogicalValue_ok hgl with ⟨hc, ht, hl⟩ | ⟨hc, ht, hl⟩
      · rw [if_pos hc, ← hts, ht, hl]
      · rw [if_neg hc, ← hts, ht, hl]

theorem update_ok_characterization {g : HLC} {w : Int} {o : Timestamp}
    {g' : HLC} {t : Timestamp} (h : HLC.update g w o = .ok (g', t)) :
    g'.last = t
  ∧ t = (if (Timestamp.bigger o g.last).time < w then (⟨w, 0⟩ : Timestamp)
         else ⟨(Timestamp.bigger o g.last).time,
               (Timestamp.bigger o g.last).logical + 1⟩) := by
  unfold HLC.update at h
  cases hts : HLC.getTimestamp g w o with
  | error e => rw [hts] at h; cases h
  | ok ts =>
    rw [hts] at h
    have h2 := Except.ok.inj h
    have hg : g' = { g with last := ts } := (congrArg Prod.fst h2).symm
    have ht : t = ts := (congrArg Prod.snd h2).symm
    subst ht
    constructor
    · rw [hg]
    · exact getTimestamp_ok hts

theorem now_ok_lt {g : HLC} {w : Int} {g' : HLC} {t : Timestamp}
    (h : HLC.now g w = .ok (g', t)) :
    Timestamp.lt g.last t = true ∧ g'.last = t := by
  unfold HLC.now at h
  obtain ⟨hlast, ht⟩ := update_ok_characterization h
  refine ⟨?_, hlast⟩
  rw [bigger_self] at ht
  by_cases hlt : g.last.time < w
  · rw [if_pos hlt] at ht
    subst ht
    unfold Timestamp.lt
    simp [hlt]
  · rw [if_neg hlt] at ht
    subst ht
    unfold Timestamp.lt
    simp

theorem nowSeq_chain {ws : List Int} :
    ∀ {g : HLC} {tss : List Timestamp}, HLC.nowSeq g ws = some tss →
      List.Chain' (fun a b => Timestamp.lt a b = true) (g.last :: tss) := by
  induction ws with
  | nil =>
    intro g tss h
    unfold HLC.nowSeq at h
    rw [← Option.some.inj h]
    exact List.chain'_singleton _
  | cons w ws ih =>
    intro g tss h
    unfold HLC.nowSeq at h
    cases hnow : HLC.now g w with
    | error e => rw [hnow] at h; cases h
    | ok p =>
      obtain ⟨g', ts⟩ := p
      rw [hnow] at h
      simp only [] at h
      cases hseq : HLC.nowSeq g' ws with
      | none => rw [hseq] at h; cases h
      | some tss' =>
        rw [hseq] at h
        simp only [Option.map_some'] at h
        rw [← Option.some.inj h]
        obtain ⟨hlt, hlast⟩ := now_ok_lt hnow
        have hch := ih hseq
        rw [hlast] at hch
        exact List.chain'_cons.mpr ⟨hlt, hch⟩

/-- C6: every sequence of successful `now()` calls yields strictly
increasing `(time, logical)` pairs under the lexicographic order; and each
successful `update` folds the candidate `bigger(other, last)`, yielding
`(wall, 0)` when the candidate is behind the wall clock and
`(candidate.time, candidate.logical + 1)` otherwise. -/
theorem hlc_now_monotonic (hlc : HLC) (ws : List Int) (tss : List Timestamp)
    (h : HLC.nowSeq hlc ws = some tss) :
    List.Chain' (fun a b => Timestamp.lt a b = true) tss
  ∧ ∀ (g : HLC) (w : Int) (o : Timestamp) (g' : HLC) (t : Timestamp),
      HLC.update g w o = .ok (g', t) →
      t = (if (Timestamp.bigger o g.last).time < w then (⟨w, 0⟩ : Timestamp)
           else ⟨(Timestamp.bigger o g.last).time,
                 (Timestamp.bigger o g.last).logical + 1⟩) := by
  constructor
  · exact (nowSeq_chain h).tail
  · intro g w o g' t hu
    exact (update_ok_characterization hu).2

/-- The concrete clock of the C6 witness: wall reading 100 at construction,
no configured bounds. -/
def wHLCRun : HLC := HLC.make 100 0 0 0 none

/-- C6 witness: two successful `now()` calls at wall readings 100 and 105
return `(100, 1)` then `(105, 0)`, a strictly increasing chain. -/
theorem hlc_now_monotonic_witness :
    HLC.nowSeq wHLCRun [100, 105] = some [⟨100, 1⟩, ⟨105, 0⟩]
  ∧ List.Chain' (fun a b => Timestamp.lt a b = true) [⟨100, 1⟩, ⟨105, 0⟩] :=
  ⟨by decide,
   (hlc_now_monotonic wHLCRun [100, 105] [⟨100, 1⟩, ⟨105, 0⟩] (by decide)).1⟩

end Valkyr
